import Mathlib

/-!
Digital clock simulator: `clock_update.c`.

A shallow embedding of the three functions of `src/clock_update.c`

* `set_tod_from_ports`   (raw 1/16-second register  →  time-of-day record),
* `set_display_from_tod` (time-of-day record        →  display bit pattern),
* `clock_update`         (the orchestrator over the two hardware ports),

followed by theorems about them.

Conventions of the embedding.

* C `int` values are mathematical integers (`Int`).  Every arithmetic
  operation of the source is executed only on values for which the 32-bit
  result equals the mathematical one: `TIME_OF_DAY_PORT + 8` is computed only
  after the range check `0 <= TIME_OF_DAY_PORT <= 16*86400`, and the display
  pattern is an OR of non-negative values below `2^30`.
* C `/` and `%` truncate towards zero: `Int.tdiv` and `Int.tmod`.
* C `>>` on a (here non-negative) `int` is `Int.shiftRight`; `<<` is the
  integer left shift; `|` is `Int.lor`.
* A function writing through a pointer takes the pointee's prior value and
  returns the pair (return code, pointee's value after the call).
* The two global ports are the fields of the record `Ports`.
-/

namespace ClockUpdate

/-- Modelled from the spec: the header `clock.h` that declares `tod_t` is not
part of the sources.  The record has the five integer fields that the code
assigns (`day_secs`, `time_secs`, `time_mins`, `time_hours`, `ampm`); each is
taken as an integer. -/
structure tod_t where
  day_secs : Int
  time_secs : Int
  time_mins : Int
  time_hours : Int
  ampm : Int
deriving DecidableEq, Repr

/-- Modelled from the spec: `clock.h` declares the two global integer ports
`TIME_OF_DAY_PORT` and `CLOCK_DISPLAY_PORT`; they are the two fields of the
machine state. -/
structure Ports where
  TIME_OF_DAY_PORT : Int
  CLOCK_DISPLAY_PORT : Int
deriving DecidableEq, Repr

/-- The function `set_tod_from_ports(tod_t *tod)` of the source, lines 24-46.
The first argument is the value of the global `TIME_OF_DAY_PORT`, the second
the record `*tod` before the call; the result is the return code and `*tod`
after the call. -/
def set_tod_from_ports (TIME_OF_DAY_PORT : Int) (tod : tod_t) : Int × tod_t :=
  if TIME_OF_DAY_PORT < 0 ∨ TIME_OF_DAY_PORT > 16 * 86400 then
    (1, tod)
  else
    let secs : Int := (TIME_OF_DAY_PORT + 8) >>> (4 : Nat)
    let tod := { tod with day_secs := secs }
    let hours : Int := Int.tdiv secs 3600
    let tod := { tod with time_hours := hours }
    let tod := { tod with ampm := 1 }
    let tod := if secs > 43200 then { tod with ampm := 2, time_hours := hours - 12 } else tod
    let tod := if hours = 0 ∨ hours = 12 then { tod with time_hours := 12 } else tod
    let mins : Int := Int.tdiv (secs - hours * 3600) 60
    let tod := { tod with time_mins := mins }
    let tod := { tod with time_secs := secs - (mins * 60 + 3600 * hours) }
    (0, tod)

/-- The local table `num_list` of `set_display_from_tod` (line 69): the segment
masks of the digits 0-9 followed by the blank mask. -/
def num_list : List Int :=
  [0b1110111, 0b0100100, 0b1011101, 0b1101101, 0b0101110, 0b1101011,
   0b1111011, 0b0100101, 0b1111111, 0b1101111, 0b0000000]

/-- The C array access `num_list[i]` for an `int` index `i`.  An index outside
`0..10` is outside the array in C; the range check of `set_display_from_tod`
keeps every index it computes within `0..9`, so the default is never read. -/
def num_list_at (i : Int) : Int := num_list.getD i.toNat 0

/-- The function `set_display_from_tod(tod_t tod, int *display)` of the source,
lines 64-87.  The second argument is `*display` before the call; the result is
the return code and `*display` after the call. -/
def set_display_from_tod (tod : tod_t) (display : Int) : Int × Int :=
  let temp_display : Int := 0
  if tod.time_hours > 12 ∨ tod.time_hours < 0 ∨ tod.time_mins > 59 ∨ tod.time_mins < 0 then
    (1, display)
  else
    let min_ones : Int := Int.tmod tod.time_mins 10
    let min_tens : Int := Int.tdiv tod.time_mins 10
    let hour_ones : Int := Int.tmod tod.time_hours 10
    let temp_display := Int.lor temp_display (num_list_at min_ones)
    let temp_display := Int.lor temp_display (num_list_at min_tens <<< (7 : Int))
    let temp_display := Int.lor temp_display (num_list_at hour_ones <<< (14 : Int))
    let temp_display :=
      if tod.time_hours ≥ 10 then Int.lor temp_display (num_list_at 1 <<< (21 : Int))
      else temp_display
    let temp_display :=
      if tod.ampm = 1 then Int.lor temp_display ((1 : Int) <<< (28 : Int))
      else Int.lor temp_display ((1 : Int) <<< (29 : Int))
    (0, temp_display)

/-- The function `clock_update()` of the source, lines 101-111, as a transition
on the two ports: the result is the return code and the ports after the call.
The return code of `set_display_from_tod` is discarded, as in the source. -/
def clock_update (p : Ports) : Int × Ports :=
  let clock : tod_t := ⟨0, 0, 0, 0, 0⟩
  let r := set_tod_from_ports p.TIME_OF_DAY_PORT clock
  let check := r.1
  let clock := r.2
  if check = 1 then
    (1, p)
  else
    (0, { p with CLOCK_DISPLAY_PORT := (set_display_from_tod clock p.CLOCK_DISPLAY_PORT).2 })

/-- Bit field of width `w` starting at bit `lo` of an integer. -/
def bitField (x : Int) (lo w : Nat) : Int := (x >>> lo) % 2 ^ w

/-- Bit `i` of an integer is set: the C test `(x >> i) & 1`. -/
def bitSet (x : Int) (i : Nat) : Prop := bitField x i 1 = 1

instance (x : Int) (i : Nat) : Decidable (bitSet x i) := by
  unfold bitSet; infer_instance

/-! ## Auxiliary facts on the decoder -/

/-- The arithmetic right shift by four is the floor division by sixteen. -/
theorem shiftRight_four (x : Int) : x >>> (4 : Nat) = x / 16 := by
  rw [Int.shiftRight_eq_div_pow]; norm_num

/-- On a non-negative dividend the truncating division by a positive literal is
the floor division. -/
theorem tdiv_of_nonneg (a b : Int) (ha : 0 ≤ a) (hb : 0 ≤ b) : Int.tdiv a b = a / b :=
  Int.tdiv_eq_ediv ha hb

/-- Normal form of the decoder on a register value in range: every field of the
result, written with floor division on the rounded seconds of the day. -/
theorem set_tod_from_ports_valid (v : Int) (tod : tod_t) (h0 : 0 ≤ v) (h1 : v ≤ 16 * 86400) :
    set_tod_from_ports v tod =
      (0, { day_secs := (v + 8) / 16
            time_secs := (v + 8) / 16
              - (((v + 8) / 16 - (v + 8) / 16 / 3600 * 3600) / 60 * 60
                  + 3600 * ((v + 8) / 16 / 3600))
            time_mins := ((v + 8) / 16 - (v + 8) / 16 / 3600 * 3600) / 60
            time_hours :=
              if (v + 8) / 16 / 3600 = 0 ∨ (v + 8) / 16 / 3600 = 12 then 12
              else if (v + 8) / 16 > 43200 then (v + 8) / 16 / 3600 - 12
              else (v + 8) / 16 / 3600
            ampm := if (v + 8) / 16 > 43200 then 2 else 1 }) := by
  have hs : (0 : Int) ≤ (v + 8) / 16 := by omega
  have hm : (0 : Int) ≤ (v + 8) / 16 - (v + 8) / 16 / 3600 * 3600 := by omega
  have hg : ¬ (v < 0 ∨ v > 16 * 86400) := by omega
  unfold set_tod_from_ports
  rw [if_neg hg]
  simp only [shiftRight_four]
  rw [tdiv_of_nonneg _ 3600 hs (by norm_num), tdiv_of_nonneg _ 60 hm (by norm_num)]
  by_cases hpm : (v + 8) / 16 > 43200 <;>
    by_cases hh : (v + 8) / 16 / 3600 = 0 ∨ (v + 8) / 16 / 3600 = 12 <;>
    simp only [hpm, hh, if_true, if_false]

/-- The decoder fails exactly on a register value out of range, and then
returns the record it was given. -/
theorem set_tod_from_ports_invalid (v : Int) (tod : tod_t) (h : v < 0 ∨ v > 16 * 86400) :
    set_tod_from_ports v tod = (1, tod) := by
  unfold set_tod_from_ports
  rw [if_pos h]

/-! ## Auxiliary facts on the encoder -/

/-- Every digit mask read by an index in `0..9` is a 7-bit value. -/
theorem num_list_at_bound (i : Int) (h0 : 0 ≤ i) (h9 : i ≤ 9) :
    0 ≤ num_list_at i ∧ num_list_at i < 128 := by
  interval_cases i <;> decide

/-- OR-ing a shifted non-negative value onto a value that fits below the shift
amount is an addition: the two occupy disjoint bits. -/
theorem lor_shiftLeft_eq_add (x b : Int) (k : Nat) (hx0 : 0 ≤ x) (hx : x < 2 ^ k) (hb : 0 ≤ b) :
    Int.lor x (b <<< (k : Int)) = x + b * 2 ^ k := by
  obtain ⟨m, rfl⟩ := Int.eq_ofNat_of_zero_le hx0
  obtain ⟨n, rfl⟩ := Int.eq_ofNat_of_zero_le hb
  have hm : m < 2 ^ k := by exact_mod_cast hx
  rw [Int.shiftLeft_coe_nat]
  show ((m ||| n <<< k : Nat) : Int) = _
  rw [Nat.lor_comm, Nat.shiftLeft_eq, Nat.mul_comm n, ← Nat.mul_add_lt_is_or hm]
  push_cast
  ring

/-- The value the encoder packs for hours `h`, minutes `m` and meridiem code
`a`, as a sum of its five fields: each field is a multiple of its own power of
two and smaller than the next field's. -/
def packed (h m a : Int) : Int :=
  num_list_at (Int.tmod m 10)
    + num_list_at (Int.tdiv m 10) * 2 ^ 7
    + num_list_at (Int.tmod h 10) * 2 ^ 14
    + (if h ≥ 10 then num_list_at 1 else 0) * 2 ^ 21
    + (if a = 1 then 1 else 2) * 2 ^ 28

/-- The encoder rejects a record whose hours or minutes are out of range and
then returns the display value it was given. -/
theorem set_display_from_tod_invalid (tod : tod_t) (d : Int)
    (h : tod.time_hours > 12 ∨ tod.time_hours < 0 ∨ tod.time_mins > 59 ∨ tod.time_mins < 0) :
    set_display_from_tod tod d = (1, d) := by
  unfold set_display_from_tod
  simp only [if_pos h]

/-- Normal form of the encoder on a record that passes validation: the ORs of
the source add up the five disjoint fields. -/
theorem set_display_from_tod_valid (tod : tod_t) (d : Int)
    (hh0 : 0 ≤ tod.time_hours) (hh1 : tod.time_hours ≤ 12)
    (hm0 : 0 ≤ tod.time_mins) (hm1 : tod.time_mins ≤ 59) :
    set_display_from_tod tod d = (0, packed tod.time_hours tod.time_mins tod.ampm) := by
  have hg : ¬ (tod.time_hours > 12 ∨ tod.time_hours < 0 ∨ tod.time_mins > 59
      ∨ tod.time_mins < 0) := by omega
  have e1 : Int.tmod tod.time_mins 10 = tod.time_mins % 10 :=
    Int.tmod_eq_emod hm0 (by norm_num)
  have e2 : Int.tdiv tod.time_mins 10 = tod.time_mins / 10 :=
    Int.tdiv_eq_ediv hm0 (by norm_num)
  have e3 : Int.tmod tod.time_hours 10 = tod.time_hours % 10 :=
    Int.tmod_eq_emod hh0 (by norm_num)
  obtain ⟨a0, a1⟩ := num_list_at_bound (Int.tmod tod.time_mins 10) (by omega) (by omega)
  obtain ⟨b0, b1⟩ := num_list_at_bound (Int.tdiv tod.time_mins 10) (by omega) (by omega)
  obtain ⟨c0, c1⟩ := num_list_at_bound (Int.tmod tod.time_hours 10) (by omega) (by omega)
  obtain ⟨d0, d1⟩ := num_list_at_bound 1 (by norm_num) (by norm_num)
  have s0 : Int.lor 0 (num_list_at (Int.tmod tod.time_mins 10))
      = num_list_at (Int.tmod tod.time_mins 10) := by
    obtain ⟨n, hn⟩ := Int.eq_ofNat_of_zero_le a0
    rw [hn]
    show ((0 ||| n : Nat) : Int) = _
    rw [Nat.zero_or]
  have s1 := lor_shiftLeft_eq_add (num_list_at (Int.tmod tod.time_mins 10))
    (num_list_at (Int.tdiv tod.time_mins 10)) 7 a0 (by omega) b0
  have s2 := lor_shiftLeft_eq_add
    (num_list_at (Int.tmod tod.time_mins 10) + num_list_at (Int.tdiv tod.time_mins 10) * 2 ^ 7)
    (num_list_at (Int.tmod tod.time_hours 10)) 14 (by omega) (by omega) c0
  have s3 := lor_shiftLeft_eq_add
    (num_list_at (Int.tmod tod.time_mins 10) + num_list_at (Int.tdiv tod.time_mins 10) * 2 ^ 7
      + num_list_at (Int.tmod tod.time_hours 10) * 2 ^ 14)
    (num_list_at 1) 21 (by omega) (by omega) d0
  have s4 : ∀ x : Int, 0 ≤ x → x < 2 ^ 28 →
      Int.lor x ((1 : Int) <<< (28 : Int)) = x + 1 * 2 ^ 28 := fun x h0 h1 =>
    lor_shiftLeft_eq_add x 1 28 h0 h1 (by norm_num)
  have s5 : ∀ x : Int, 0 ≤ x → x < 2 ^ 28 →
      Int.lor x ((1 : Int) <<< (29 : Int)) = x + 2 * 2 ^ 28 := fun x h0 h1 => by
    have := lor_shiftLeft_eq_add x 1 29 h0 (by omega) (by norm_num)
    rw [show ((29 : Nat) : Int) = 29 from rfl] at this
    rw [this]; norm_num
  simp only [Nat.cast_ofNat] at s1 s2 s3
  unfold set_display_from_tod packed
  simp only [if_neg hg, s0, s1, s2]
  by_cases h10 : tod.time_hours ≥ 10 <;> by_cases ha : tod.ampm = 1
  · simp only [if_pos h10, if_pos ha, s3]
    rw [s4 _ (by omega) (by omega)]
  · simp only [if_pos h10, if_neg ha, s3]
    rw [s5 _ (by omega) (by omega)]
  · simp only [if_neg h10, if_pos ha]
    rw [s4 _ (by omega) (by omega), zero_mul, add_zero]
  · simp only [if_neg h10, if_neg ha]
    rw [s5 _ (by omega) (by omega), zero_mul, add_zero]

/-- A bit field is a quotient and remainder by powers of two. -/
theorem bitField_eq (x : Int) (lo w : Nat) : bitField x lo w = x / 2 ^ lo % 2 ^ w := by
  unfold bitField
  rw [Int.shiftRight_eq_div_pow]
  norm_cast

/-- Reading the packed value back field by field, for hours and minutes that
pass validation. -/
theorem packed_fields (h m a : Int) (hh0 : 0 ≤ h) (hm0 : 0 ≤ m) (hm1 : m ≤ 59) :
    bitField (packed h m a) 0 7 = num_list_at (Int.tmod m 10) ∧
    bitField (packed h m a) 7 7 = num_list_at (Int.tdiv m 10) ∧
    bitField (packed h m a) 14 7 = num_list_at (Int.tmod h 10) ∧
    bitField (packed h m a) 21 7 = (if h ≥ 10 then num_list_at 1 else 0) ∧
    bitField (packed h m a) 28 2 = (if a = 1 then 1 else 2) ∧
    bitField (packed h m a) 28 1 = (if a = 1 then 1 else 0) ∧
    bitField (packed h m a) 29 1 = (if a = 1 then 0 else 1) ∧
    (2 ^ 28 ≤ packed h m a ∧ packed h m a < 2 ^ 30) := by
  have e1 : Int.tmod m 10 = m % 10 := Int.tmod_eq_emod hm0 (by norm_num)
  have e2 : Int.tdiv m 10 = m / 10 := Int.tdiv_eq_ediv hm0 (by norm_num)
  have e3 : Int.tmod h 10 = h % 10 := Int.tmod_eq_emod hh0 (by norm_num)
  obtain ⟨a0, a1⟩ := num_list_at_bound (Int.tmod m 10) (by omega) (by omega)
  obtain ⟨b0, b1⟩ := num_list_at_bound (Int.tdiv m 10) (by omega) (by omega)
  obtain ⟨c0, c1⟩ := num_list_at_bound (Int.tmod h 10) (by omega) (by omega)
  obtain ⟨d0, d1⟩ := num_list_at_bound 1 (by norm_num) (by norm_num)
  simp only [bitField_eq]
  unfold packed
  generalize num_list_at (Int.tmod m 10) = A at a0 a1 ⊢
  generalize num_list_at (Int.tdiv m 10) = B at b0 b1 ⊢
  generalize num_list_at (Int.tmod h 10) = C at c0 c1 ⊢
  generalize num_list_at 1 = D at d0 d1 ⊢
  by_cases h10 : h ≥ 10 <;> by_cases ha : a = 1 <;>
    simp only [if_pos, if_neg, h10, ha, not_false_eq_true] <;>
    refine ⟨?_, ?_, ?_, ?_, ?_, ?_, ?_, ?_, ?_⟩ <;> omega

/-- The record decoded from a register value in range passes the validation of
the encoder, and does not depend on the record handed to the decoder. -/
theorem decoded_passes_validation (v : Int) (tod : tod_t) (h0 : 0 ≤ v) (h1 : v ≤ 16 * 86400) :
    (0 ≤ (set_tod_from_ports v tod).2.time_hours ∧ (set_tod_from_ports v tod).2.time_hours ≤ 12 ∧
      0 ≤ (set_tod_from_ports v tod).2.time_mins ∧ (set_tod_from_ports v tod).2.time_mins ≤ 59) ∧
    set_tod_from_ports v tod = set_tod_from_ports v ⟨0, 0, 0, 0, 0⟩ := by
  rw [set_tod_from_ports_valid v tod h0 h1, set_tod_from_ports_valid v ⟨0, 0, 0, 0, 0⟩ h0 h1]
  dsimp only
  refine ⟨⟨?_, ?_, by omega, by omega⟩, rfl⟩ <;> split_ifs <;> omega

/-- The masks of the digits 0-9 are pairwise distinct: the index is determined
by the mask. -/
theorem num_list_at_inj (i j : Int) (hi0 : 0 ≤ i) (hi9 : i ≤ 9) (hj0 : 0 ≤ j) (hj9 : j ≤ 9)
    (h : num_list_at i = num_list_at j) : i = j := by
  interval_cases i <;> interval_cases j <;>
    first
      | rfl
      | exact absurd h (by decide)

/-- A return code 0 of the encoder means that the validation passed. -/
theorem encode_ok_ranges (tod : tod_t) (d : Int) (h : (set_display_from_tod tod d).1 = 0) :
    0 ≤ tod.time_hours ∧ tod.time_hours ≤ 12 ∧ 0 ≤ tod.time_mins ∧ tod.time_mins ≤ 59 := by
  by_contra hc
  have hg : tod.time_hours > 12 ∨ tod.time_hours < 0 ∨ tod.time_mins > 59
      ∨ tod.time_mins < 0 := by omega
  rw [set_display_from_tod_invalid tod d hg] at h
  exact absurd (show (1 : Int) = 0 from h) (by decide)

/-- A left shift of an integer by a literal amount is a multiplication by the
power of two. -/
theorem shiftLeft_eq_mul (x : Int) (k : Nat) : x <<< (k : Int) = x * 2 ^ k := by
  rw [Int.shiftLeft_eq_mul_pow]
  norm_cast

/-- For an index in `0..9` the array access reads an element of the table (the
default of the lookup is not used), and the index is within its length. -/
theorem num_list_at_get (i : Int) (h0 : 0 ≤ i) (h9 : i ≤ 9) :
    i.toNat < num_list.length ∧ num_list[i.toNat]? = some (num_list_at i) := by
  interval_cases i <;> exact ⟨by decide, rfl⟩

/-! ## The decoder `set_tod_from_ports` -/

/-- C1: for every raw register value `v` with `0 <= v <= 16*86400` the decoder
returns 0 and the record it fills in has `1 <= time_hours <= 12`,
`0 <= time_mins <= 59`, `0 <= time_secs <= 59` and `0 <= day_secs <= 86400`. -/
theorem decode_valid_ranges (v : Int) (tod : tod_t) (h0 : 0 ≤ v) (h1 : v ≤ 16 * 86400) :
    (set_tod_from_ports v tod).1 = 0 ∧
    (1 ≤ (set_tod_from_ports v tod).2.time_hours ∧ (set_tod_from_ports v tod).2.time_hours ≤ 12) ∧
    (0 ≤ (set_tod_from_ports v tod).2.time_mins ∧ (set_tod_from_ports v tod).2.time_mins ≤ 59) ∧
    (0 ≤ (set_tod_from_ports v tod).2.time_secs ∧ (set_tod_from_ports v tod).2.time_secs ≤ 59) ∧
    (0 ≤ (set_tod_from_ports v tod).2.day_secs ∧ (set_tod_from_ports v tod).2.day_secs ≤ 86400) := by
  rw [set_tod_from_ports_valid v tod h0 h1]
  dsimp only
  refine ⟨rfl, ?_, ⟨by omega, by omega⟩, ⟨by omega, by omega⟩, ⟨by omega, by omega⟩⟩
  split_ifs <;> omega

/-- Witness of C1 at the last tick of the day's range, `v = 16*86400`. -/
theorem decode_valid_ranges_witness :
    (set_tod_from_ports (16 * 86400) ⟨0, 0, 0, 0, 0⟩).1 = 0 ∧
    (1 ≤ (set_tod_from_ports (16 * 86400) ⟨0, 0, 0, 0, 0⟩).2.time_hours ∧
      (set_tod_from_ports (16 * 86400) ⟨0, 0, 0, 0, 0⟩).2.time_hours ≤ 12) ∧
    (0 ≤ (set_tod_from_ports (16 * 86400) ⟨0, 0, 0, 0, 0⟩).2.time_mins ∧
      (set_tod_from_ports (16 * 86400) ⟨0, 0, 0, 0, 0⟩).2.time_mins ≤ 59) ∧
    (0 ≤ (set_tod_from_ports (16 * 86400) ⟨0, 0, 0, 0, 0⟩).2.time_secs ∧
      (set_tod_from_ports (16 * 86400) ⟨0, 0, 0, 0, 0⟩).2.time_secs ≤ 59) ∧
    (0 ≤ (set_tod_from_ports (16 * 86400) ⟨0, 0, 0, 0, 0⟩).2.day_secs ∧
      (set_tod_from_ports (16 * 86400) ⟨0, 0, 0, 0, 0⟩).2.day_secs ≤ 86400) :=
  decode_valid_ranges (16 * 86400) ⟨0, 0, 0, 0, 0⟩ (by decide) (by decide)

/-- C2: for every raw register value `v` with `v < 0` or `v > 16*86400` the
decoder returns 1 and leaves the caller's record exactly as it was; and it
returns 1 only for such `v`. -/
theorem decode_invalid_iff (v : Int) (tod : tod_t) :
    ((v < 0 ∨ v > 16 * 86400) →
      (set_tod_from_ports v tod).1 = 1 ∧ (set_tod_from_ports v tod).2 = tod) ∧
    ((set_tod_from_ports v tod).1 = 1 → (v < 0 ∨ v > 16 * 86400)) := by
  constructor
  · intro h
    rw [set_tod_from_ports_invalid v tod h]
    exact ⟨rfl, rfl⟩
  · intro h
    by_contra hc
    rw [set_tod_from_ports_valid v tod (by omega) (by omega)] at h
    exact absurd (show (0 : Int) = 1 from h) (by decide)

/-- Witness of C2 at `v = -1` on a record with five distinct field values. -/
theorem decode_invalid_iff_witness :
    ((-1 : Int) < 0 ∨ (-1 : Int) > 16 * 86400) ∧
    (set_tod_from_ports (-1) ⟨10, 20, 30, 40, 50⟩).1 = 1 ∧
    (set_tod_from_ports (-1) ⟨10, 20, 30, 40, 50⟩).2 = ⟨10, 20, 30, 40, 50⟩ :=
  ⟨Or.inl (by decide),
    (decode_invalid_iff (-1) ⟨10, 20, 30, 40, 50⟩).1 (Or.inl (by decide))⟩

/-- C3: for every valid raw value `v` the decoded `day_secs` equals
`(v + 8) >> 4`, which is `v` rounded to the nearest whole second with halves
rounded up: `v / 16` when `v mod 16 <= 7` and `v / 16 + 1` when
`v mod 16 >= 8`; in particular `v = 7` gives 0 and `v = 8` gives 1. -/
theorem decode_day_secs_rounds (v : Int) (tod : tod_t) (h0 : 0 ≤ v) (h1 : v ≤ 16 * 86400) :
    (set_tod_from_ports v tod).2.day_secs = (v + 8) >>> (4 : Nat) ∧
    (v % 16 ≤ 7 → (set_tod_from_ports v tod).2.day_secs = v / 16) ∧
    (v % 16 ≥ 8 → (set_tod_from_ports v tod).2.day_secs = v / 16 + 1) ∧
    (set_tod_from_ports 7 tod).2.day_secs = 0 ∧
    (set_tod_from_ports 8 tod).2.day_secs = 1 := by
  rw [set_tod_from_ports_valid v tod h0 h1,
    set_tod_from_ports_valid 7 tod (by decide) (by decide),
    set_tod_from_ports_valid 8 tod (by decide) (by decide), shiftRight_four]
  dsimp only
  refine ⟨rfl, ?_, ?_, by decide, by decide⟩
  · intro h; omega
  · intro h; omega

/-- Witness of C3 at `v = 24` (remainder 8, rounded up to 2 seconds). -/
theorem decode_day_secs_rounds_witness :
    (set_tod_from_ports 24 ⟨0, 0, 0, 0, 0⟩).2.day_secs = ((24 : Int) + 8) >>> (4 : Nat) ∧
    ((24 : Int) % 16 ≤ 7 → (set_tod_from_ports 24 ⟨0, 0, 0, 0, 0⟩).2.day_secs = 24 / 16) ∧
    ((24 : Int) % 16 ≥ 8 → (set_tod_from_ports 24 ⟨0, 0, 0, 0, 0⟩).2.day_secs = 24 / 16 + 1) ∧
    (set_tod_from_ports 7 ⟨0, 0, 0, 0, 0⟩).2.day_secs = 0 ∧
    (set_tod_from_ports 8 ⟨0, 0, 0, 0, 0⟩).2.day_secs = 1 :=
  decode_day_secs_rounds 24 ⟨0, 0, 0, 0, 0⟩ (by decide) (by decide)

/-- C4: for every valid raw value `v`, with `s = day_secs` and `h = s / 3600`
(truncating): `ampm` is 2 (PM) if and only if `s > 43200`, otherwise 1 (AM);
`time_hours` is 12 when `h` is 0 or 12, otherwise `h - 12` when PM and `h` when
AM.  In particular `v = 0` decodes to hours 12, AM, and `v = 16*43200` (noon)
decodes to AM with hours 12. -/
theorem decode_meridiem_and_hours (v : Int) (tod : tod_t) (h0 : 0 ≤ v) (h1 : v ≤ 16 * 86400) :
    (((set_tod_from_ports v tod).2.ampm = 2 ↔ (set_tod_from_ports v tod).2.day_secs > 43200) ∧
      (¬ (set_tod_from_ports v tod).2.day_secs > 43200 → (set_tod_from_ports v tod).2.ampm = 1)) ∧
    ((Int.tdiv (set_tod_from_ports v tod).2.day_secs 3600 = 0 ∨
        Int.tdiv (set_tod_from_ports v tod).2.day_secs 3600 = 12) →
      (set_tod_from_ports v tod).2.time_hours = 12) ∧
    (¬ (Int.tdiv (set_tod_from_ports v tod).2.day_secs 3600 = 0 ∨
        Int.tdiv (set_tod_from_ports v tod).2.day_secs 3600 = 12) →
      ((set_tod_from_ports v tod).2.ampm = 2 →
        (set_tod_from_ports v tod).2.time_hours =
          Int.tdiv (set_tod_from_ports v tod).2.day_secs 3600 - 12) ∧
      ((set_tod_from_ports v tod).2.ampm = 1 →
        (set_tod_from_ports v tod).2.time_hours =
          Int.tdiv (set_tod_from_ports v tod).2.day_secs 3600)) ∧
    ((set_tod_from_ports 0 tod).2.time_hours = 12 ∧ (set_tod_from_ports 0 tod).2.ampm = 1) ∧
    ((set_tod_from_ports (16 * 43200) tod).2.time_hours = 12 ∧
      (set_tod_from_ports (16 * 43200) tod).2.ampm = 1) := by
  rw [set_tod_from_ports_valid v tod h0 h1,
    set_tod_from_ports_valid 0 tod (by decide) (by decide),
    set_tod_from_ports_valid (16 * 43200) tod (by decide) (by decide)]
  dsimp only
  rw [tdiv_of_nonneg _ 3600 (by omega) (by norm_num)]
  refine ⟨⟨?_, ?_⟩, ?_, ?_, ⟨by decide, by decide⟩, ⟨by decide, by decide⟩⟩
  · split_ifs <;> simp_all
  · intro h; rw [if_neg h]
  · intro h; rw [if_pos h]
  · intro h
    rw [if_neg h]
    constructor
    · intro ha; split_ifs at ha ⊢ <;> first | rfl | omega
    · intro ha; split_ifs at ha ⊢ <;> first | rfl | omega

/-- Witness of C4 at `v = 16*50000` (13:53:20, an afternoon time): the
meridiem is PM and the displayed hour is the hour of the day less twelve. -/
theorem decode_meridiem_and_hours_witness :
    ((0 : Int) ≤ 16 * 50000 ∧ (16 * 50000 : Int) ≤ 16 * 86400) ∧
    (set_tod_from_ports (16 * 50000) ⟨0, 0, 0, 0, 0⟩).2.ampm = 2 ∧
    (set_tod_from_ports (16 * 50000) ⟨0, 0, 0, 0, 0⟩).2.time_hours =
      Int.tdiv (set_tod_from_ports (16 * 50000) ⟨0, 0, 0, 0, 0⟩).2.day_secs 3600 - 12 :=
  ⟨⟨by decide, by decide⟩,
    (decode_meridiem_and_hours (16 * 50000) ⟨0, 0, 0, 0, 0⟩ (by decide) (by decide)).1.1.2
      (by decide),
    ((decode_meridiem_and_hours (16 * 50000) ⟨0, 0, 0, 0, 0⟩ (by decide) (by decide)).2.2.1
      (by decide)).1 (by decide)⟩

/-- C5: for every valid raw value `v`, with `s = day_secs` and `h = s / 3600`:
`time_mins = (s - h*3600) / 60` and `time_secs = s - (time_mins*60 + h*3600)`;
equivalently `time_mins = (s / 60) mod 60`, `time_secs = s mod 60`, and
`s = h*3600 + time_mins*60 + time_secs`. -/
theorem decode_mins_secs (v : Int) (tod : tod_t) (h0 : 0 ≤ v) (h1 : v ≤ 16 * 86400) :
    (set_tod_from_ports v tod).2.time_mins =
      Int.tdiv ((set_tod_from_ports v tod).2.day_secs
        - Int.tdiv (set_tod_from_ports v tod).2.day_secs 3600 * 3600) 60 ∧
    (set_tod_from_ports v tod).2.time_secs =
      (set_tod_from_ports v tod).2.day_secs
        - ((set_tod_from_ports v tod).2.time_mins * 60
            + Int.tdiv (set_tod_from_ports v tod).2.day_secs 3600 * 3600) ∧
    (set_tod_from_ports v tod).2.time_mins =
      Int.tmod (Int.tdiv (set_tod_from_ports v tod).2.day_secs 60) 60 ∧
    (set_tod_from_ports v tod).2.time_secs =
      Int.tmod (set_tod_from_ports v tod).2.day_secs 60 ∧
    (set_tod_from_ports v tod).2.day_secs =
      Int.tdiv (set_tod_from_ports v tod).2.day_secs 3600 * 3600
        + (set_tod_from_ports v tod).2.time_mins * 60
        + (set_tod_from_ports v tod).2.time_secs := by
  have hs : (0 : Int) ≤ (v + 8) / 16 := by omega
  rw [set_tod_from_ports_valid v tod h0 h1]
  dsimp only
  rw [tdiv_of_nonneg _ 3600 hs (by norm_num), tdiv_of_nonneg _ 60 hs (by norm_num),
    tdiv_of_nonneg _ 60 (by omega) (by norm_num),
    Int.tmod_eq_emod (by omega) (by norm_num), Int.tmod_eq_emod hs (by norm_num)]
  refine ⟨rfl, ?_, ?_, ?_, ?_⟩ <;> omega

/-- Witness of C5 at `v = 16*86399 + 3` (23:59:59, the last second of the day). -/
theorem decode_mins_secs_witness :
    ((0 : Int) ≤ 16 * 86399 + 3 ∧ (16 * 86399 + 3 : Int) ≤ 16 * 86400) ∧
    (set_tod_from_ports (16 * 86399 + 3) ⟨0, 0, 0, 0, 0⟩).2.time_mins =
      Int.tmod (Int.tdiv (set_tod_from_ports (16 * 86399 + 3) ⟨0, 0, 0, 0, 0⟩).2.day_secs 60) 60 ∧
    (set_tod_from_ports (16 * 86399 + 3) ⟨0, 0, 0, 0, 0⟩).2.time_secs =
      Int.tmod (set_tod_from_ports (16 * 86399 + 3) ⟨0, 0, 0, 0, 0⟩).2.day_secs 60 ∧
    (set_tod_from_ports (16 * 86399 + 3) ⟨0, 0, 0, 0, 0⟩).2.day_secs =
      Int.tdiv (set_tod_from_ports (16 * 86399 + 3) ⟨0, 0, 0, 0, 0⟩).2.day_secs 3600 * 3600
        + (set_tod_from_ports (16 * 86399 + 3) ⟨0, 0, 0, 0, 0⟩).2.time_mins * 60
        + (set_tod_from_ports (16 * 86399 + 3) ⟨0, 0, 0, 0, 0⟩).2.time_secs :=
  ⟨⟨by decide, by decide⟩,
    (decode_mins_secs (16 * 86399 + 3) ⟨0, 0, 0, 0, 0⟩ (by decide) (by decide)).2.2⟩

/-! ## The encoder `set_display_from_tod` -/

/-- C6: the encoder returns 1 if and only if `time_hours` is outside `[0,12]` or
`time_mins` is outside `[0,59]`; whenever it returns 1 the integer behind
`display` keeps its prior value; a record with `time_hours = 13` is rejected
with the output unchanged. -/
theorem encode_fails_iff (tod : tod_t) (d : Int) :
    ((set_display_from_tod tod d).1 = 1 ↔
      (tod.time_hours < 0 ∨ tod.time_hours > 12 ∨ tod.time_mins < 0 ∨ tod.time_mins > 59)) ∧
    ((set_display_from_tod tod d).1 = 1 → (set_display_from_tod tod d).2 = d) ∧
    (tod.time_hours = 13 → set_display_from_tod tod d = (1, d)) := by
  by_cases hg : tod.time_hours > 12 ∨ tod.time_hours < 0 ∨ tod.time_mins > 59
      ∨ tod.time_mins < 0
  · rw [set_display_from_tod_invalid tod d hg]
    refine ⟨⟨fun _ => by omega, fun _ => rfl⟩, fun _ => rfl, fun _ => rfl⟩
  · rw [set_display_from_tod_valid tod d (by omega) (by omega) (by omega) (by omega)]
    refine ⟨⟨fun h => ?_, fun h => ?_⟩, fun h => ?_, fun h => ?_⟩
    · exact absurd (show (0 : Int) = 1 from h) (by decide)
    · omega
    · exact absurd (show (0 : Int) = 1 from h) (by decide)
    · omega

/-- Witness of C6: hours 13 with a prior display value of 12345. -/
theorem encode_fails_iff_witness :
    set_display_from_tod ⟨0, 0, 0, 13, 1⟩ 12345 = (1, 12345) :=
  (encode_fails_iff ⟨0, 0, 0, 13, 1⟩ 12345).2.2 rfl

/-- C7: for every record with `time_hours` in `[0,12]` and `time_mins` in
`[0,59]` the encoder succeeds and the written pattern has its five fields in
disjoint bit ranges that read back independently: bits 0-6 are
`num_list[time_mins % 10]`, bits 7-13 are `num_list[time_mins / 10]`, bits
14-20 are `num_list[time_hours % 10]`, bits 21-27 are `num_list[1]`
(`0b0100100`) when `time_hours >= 10` and 0 otherwise, bits 28-29 hold the
meridiem; the pattern is exactly the sum of the five fields at offsets 0, 7,
14, 21, 28; and the masks of the digits 0-9 are the fixed table. -/
theorem encode_fields (tod : tod_t) (d : Int)
    (hh0 : 0 ≤ tod.time_hours) (hh1 : tod.time_hours ≤ 12)
    (hm0 : 0 ≤ tod.time_mins) (hm1 : tod.time_mins ≤ 59) :
    (set_display_from_tod tod d).1 = 0 ∧
    bitField (set_display_from_tod tod d).2 0 7 = num_list_at (Int.tmod tod.time_mins 10) ∧
    bitField (set_display_from_tod tod d).2 7 7 = num_list_at (Int.tdiv tod.time_mins 10) ∧
    bitField (set_display_from_tod tod d).2 14 7 = num_list_at (Int.tmod tod.time_hours 10) ∧
    bitField (set_display_from_tod tod d).2 21 7
      = (if tod.time_hours ≥ 10 then 0b0100100 else 0) ∧
    bitField (set_display_from_tod tod d).2 28 2 = (if tod.ampm = 1 then 1 else 2) ∧
    (set_display_from_tod tod d).2 =
      bitField (set_display_from_tod tod d).2 0 7
        + bitField (set_display_from_tod tod d).2 7 7 * 2 ^ 7
        + bitField (set_display_from_tod tod d).2 14 7 * 2 ^ 14
        + bitField (set_display_from_tod tod d).2 21 7 * 2 ^ 21
        + bitField (set_display_from_tod tod d).2 28 2 * 2 ^ 28 ∧
    num_list_at 1 = 0b0100100 ∧
    num_list.take 10 = [0b1110111, 0b0100100, 0b1011101, 0b1101101, 0b0101110,
      0b1101011, 0b1111011, 0b0100101, 0b1111111, 0b1101111] := by
  obtain ⟨f0, f1, f2, f3, f4, -, -, -⟩ :=
    packed_fields tod.time_hours tod.time_mins tod.ampm hh0 hm0 hm1
  have hd : num_list_at 1 = 0b0100100 := by decide
  rw [set_display_from_tod_valid tod d hh0 hh1 hm0 hm1]
  dsimp only
  rw [f0, f1, f2, f3, f4, hd]
  refine ⟨rfl, rfl, rfl, rfl, rfl, rfl, ?_, rfl, by decide⟩
  unfold packed
  rw [hd]

/-- Witness of C7 at 12:59. -/
theorem encode_fields_witness :
    (set_display_from_tod ⟨0, 0, 59, 12, 2⟩ 0).1 = 0 ∧
    bitField (set_display_from_tod ⟨0, 0, 59, 12, 2⟩ 0).2 0 7 = 0b1101111 ∧
    bitField (set_display_from_tod ⟨0, 0, 59, 12, 2⟩ 0).2 7 7 = 0b1101011 ∧
    bitField (set_display_from_tod ⟨0, 0, 59, 12, 2⟩ 0).2 14 7 = 0b1011101 ∧
    bitField (set_display_from_tod ⟨0, 0, 59, 12, 2⟩ 0).2 21 7 = 0b0100100 :=
  have h := encode_fields ⟨0, 0, 59, 12, 2⟩ 0 (by decide) (by decide) (by decide) (by decide)
  ⟨h.1, h.2.1, h.2.2.1, h.2.2.2.1, h.2.2.2.2.1⟩

/-- C8: for every record with `time_hours` in `[1,12]`, `time_mins` in `[0,59]`
and `ampm` 1 (AM) or 2 (PM) the encoder succeeds and the pattern has exactly
one of bit 28 and bit 29 set: bit 28 if and only if AM, bit 29 if and only if
PM; and bits 21-27 are zero whenever `time_hours < 10`. -/
theorem encode_meridiem_bits (tod : tod_t) (d : Int)
    (hh0 : 1 ≤ tod.time_hours) (hh1 : tod.time_hours ≤ 12)
    (hm0 : 0 ≤ tod.time_mins) (hm1 : tod.time_mins ≤ 59)
    (ha : tod.ampm = 1 ∨ tod.ampm = 2) :
    (set_display_from_tod tod d).1 = 0 ∧
    ((bitSet (set_display_from_tod tod d).2 28 ∧ ¬ bitSet (set_display_from_tod tod d).2 29) ∨
      (¬ bitSet (set_display_from_tod tod d).2 28 ∧ bitSet (set_display_from_tod tod d).2 29)) ∧
    (bitSet (set_display_from_tod tod d).2 28 ↔ tod.ampm = 1) ∧
    (bitSet (set_display_from_tod tod d).2 29 ↔ tod.ampm = 2) ∧
    (tod.time_hours < 10 → bitField (set_display_from_tod tod d).2 21 7 = 0) := by
  obtain ⟨-, -, -, f3, -, f5, f6, -⟩ :=
    packed_fields tod.time_hours tod.time_mins tod.ampm (by omega) hm0 hm1
  rw [set_display_from_tod_valid tod d (by omega) hh1 hm0 hm1]
  dsimp only
  unfold bitSet
  rw [f3, f5, f6]
  rcases ha with ha | ha
  · rw [ha]
    refine ⟨rfl, Or.inl ⟨by decide, by decide⟩, by decide, by decide, fun h => ?_⟩
    rw [if_neg (by omega)]
  · rw [ha]
    refine ⟨rfl, Or.inr ⟨by decide, by decide⟩, by decide, by decide, fun h => ?_⟩
    rw [if_neg (by omega)]

/-- Witness of C8 at 9:05 PM: bit 29 is set, bit 28 is clear and the hours-tens
field is blank. -/
theorem encode_meridiem_bits_witness :
    (set_display_from_tod ⟨0, 0, 5, 9, 2⟩ 0).1 = 0 ∧
    bitSet (set_display_from_tod ⟨0, 0, 5, 9, 2⟩ 0).2 29 ∧
    ¬ bitSet (set_display_from_tod ⟨0, 0, 5, 9, 2⟩ 0).2 28 ∧
    bitField (set_display_from_tod ⟨0, 0, 5, 9, 2⟩ 0).2 21 7 = 0 :=
  have h := encode_meridiem_bits ⟨0, 0, 5, 9, 2⟩ 0 (by decide) (by decide) (by decide)
    (by decide) (Or.inr rfl)
  ⟨h.1, h.2.2.2.1.2 rfl, fun h28 => absurd (h.2.2.1.1 h28) (by decide), h.2.2.2.2 (by decide)⟩

/-! ## The orchestrator `clock_update` -/

/-- C9: for every `TIME_OF_DAY_PORT` value `v` with `v < 0` or `v > 16*86400`
(e.g. `v = -1`) and every prior value `d` of `CLOCK_DISPLAY_PORT`,
`clock_update` returns 1 and `CLOCK_DISPLAY_PORT` is still `d`; and it returns 1
for no other `v`. -/
theorem clock_update_error_iff (v d : Int) :
    ((v < 0 ∨ v > 16 * 86400) →
      (clock_update ⟨v, d⟩).1 = 1 ∧ (clock_update ⟨v, d⟩).2.CLOCK_DISPLAY_PORT = d) ∧
    ((clock_update ⟨v, d⟩).1 = 1 → (v < 0 ∨ v > 16 * 86400)) ∧
    ((clock_update ⟨-1, d⟩).1 = 1 ∧ (clock_update ⟨-1, d⟩).2.CLOCK_DISPLAY_PORT = d) := by
  have hneg : ∀ w : Int, (w < 0 ∨ w > 16 * 86400) →
      (clock_update ⟨w, d⟩).1 = 1 ∧ (clock_update ⟨w, d⟩).2.CLOCK_DISPLAY_PORT = d := by
    intro w hw
    have e : clock_update ⟨w, d⟩ = (1, ⟨w, d⟩) := by
      unfold clock_update
      simp only [set_tod_from_ports_invalid w _ hw]
      rfl
    rw [e]
    exact ⟨rfl, rfl⟩
  refine ⟨hneg v, fun h => ?_, hneg (-1) (Or.inl (by decide))⟩
  by_contra hc
  unfold clock_update at h
  simp only [set_tod_from_ports_valid v _ (by omega : 0 ≤ v) (by omega : v ≤ 16 * 86400)] at h
  rw [if_neg (by decide)] at h
  exact absurd (show (0 : Int) = 1 from h) (by decide)

/-- Witness of C9 at `v = 16*86400 + 1`, one tick past the range, with a prior
display value of 777. -/
theorem clock_update_error_iff_witness :
    ((16 * 86400 + 1 : Int) < 0 ∨ (16 * 86400 + 1 : Int) > 16 * 86400) ∧
    (clock_update ⟨16 * 86400 + 1, 777⟩).1 = 1 ∧
    (clock_update ⟨16 * 86400 + 1, 777⟩).2.CLOCK_DISPLAY_PORT = 777 :=
  ⟨Or.inr (by decide), (clock_update_error_iff (16 * 86400 + 1) 777).1 (Or.inr (by decide))⟩

/-- C10: for every `TIME_OF_DAY_PORT` value `v` in `[0, 16*86400]` and every
prior value `d` of `CLOCK_DISPLAY_PORT`, `clock_update` returns 0, leaves
`TIME_OF_DAY_PORT` equal to `v`, and sets `CLOCK_DISPLAY_PORT` to exactly the
pattern `set_display_from_tod` produces (successfully, into any output
location) for the record `set_tod_from_ports` decodes from `v` (into any
record); the new display value is the same for every `d`. -/
theorem clock_update_success (v d : Int) (h0 : 0 ≤ v) (h1 : v ≤ 16 * 86400) :
    (clock_update ⟨v, d⟩).1 = 0 ∧
    (clock_update ⟨v, d⟩).2.TIME_OF_DAY_PORT = v ∧
    (∀ (t0 : tod_t) (d0 : Int),
      (set_tod_from_ports v t0).1 = 0 ∧
      (set_display_from_tod (set_tod_from_ports v t0).2 d0).1 = 0 ∧
      (clock_update ⟨v, d⟩).2.CLOCK_DISPLAY_PORT
        = (set_display_from_tod (set_tod_from_ports v t0).2 d0).2) ∧
    (∀ d2 : Int, (clock_update ⟨v, d2⟩).2.CLOCK_DISPLAY_PORT
        = (clock_update ⟨v, d⟩).2.CLOCK_DISPLAY_PORT) := by
  obtain ⟨⟨r0, r1, r2, r3⟩, -⟩ := decoded_passes_validation v ⟨0, 0, 0, 0, 0⟩ h0 h1
  have hret : (set_tod_from_ports v ⟨0, 0, 0, 0, 0⟩).1 = 0 := by
    rw [set_tod_from_ports_valid v _ h0 h1]
  have hcu : ∀ x : Int, clock_update ⟨v, x⟩ =
      (0, ⟨v, packed (set_tod_from_ports v ⟨0, 0, 0, 0, 0⟩).2.time_hours
        (set_tod_from_ports v ⟨0, 0, 0, 0, 0⟩).2.time_mins
        (set_tod_from_ports v ⟨0, 0, 0, 0, 0⟩).2.ampm⟩) := by
    intro x
    unfold clock_update
    simp only [hret]
    rw [if_neg (by decide), set_display_from_tod_valid _ x r0 r1 r2 r3]
  refine ⟨by rw [hcu d], by rw [hcu d], fun t0 d0 => ?_, fun d2 => by rw [hcu d2, hcu d]⟩
  rw [(decoded_passes_validation v t0 h0 h1).2, set_display_from_tod_valid _ d0 r0 r1 r2 r3,
    hcu d]
  refine ⟨hret, ?_, ?_⟩ <;> rfl

/-- Witness of C10 at `v = 16*50000` with a prior display value of all ones in
the low 30 bits. -/
theorem clock_update_success_witness :
    (clock_update ⟨16 * 50000, 2 ^ 30 - 1⟩).1 = 0 ∧
    (clock_update ⟨16 * 50000, 2 ^ 30 - 1⟩).2.TIME_OF_DAY_PORT = 16 * 50000 ∧
    (clock_update ⟨16 * 50000, 2 ^ 30 - 1⟩).2.CLOCK_DISPLAY_PORT
      = (set_display_from_tod (set_tod_from_ports (16 * 50000) ⟨9, 9, 9, 9, 9⟩).2 0).2 :=
  have h := clock_update_success (16 * 50000) (2 ^ 30 - 1) (by decide) (by decide)
  ⟨h.1, h.2.1, (h.2.2.1 ⟨9, 9, 9, 9, 9⟩ 0).2.2⟩

/-! ## Scenarios and further properties -/

/-- C11: end to end, the raw register value `16*3661` decodes to hours 1,
minutes 1, seconds 1, AM, and that record encodes to a pattern whose bits 0-6
are the digit-1 mask `0b0100100`, bits 7-13 the digit-0 mask `0b1110111`, bits
14-20 the digit-1 mask, bits 21-27 zero, bit 28 set and bit 29 clear. -/
theorem end_to_end_010101 :
    (set_tod_from_ports (16 * 3661) ⟨0, 0, 0, 0, 0⟩).1 = 0 ∧
    (set_tod_from_ports (16 * 3661) ⟨0, 0, 0, 0, 0⟩).2.time_hours = 1 ∧
    (set_tod_from_ports (16 * 3661) ⟨0, 0, 0, 0, 0⟩).2.time_mins = 1 ∧
    (set_tod_from_ports (16 * 3661) ⟨0, 0, 0, 0, 0⟩).2.time_secs = 1 ∧
    (set_tod_from_ports (16 * 3661) ⟨0, 0, 0, 0, 0⟩).2.ampm = 1 ∧
    (set_display_from_tod (set_tod_from_ports (16 * 3661) ⟨0, 0, 0, 0, 0⟩).2 0).1 = 0 ∧
    bitField (set_display_from_tod (set_tod_from_ports (16 * 3661) ⟨0, 0, 0, 0, 0⟩).2 0).2 0 7
      = 0b0100100 ∧
    bitField (set_display_from_tod (set_tod_from_ports (16 * 3661) ⟨0, 0, 0, 0, 0⟩).2 0).2 7 7
      = 0b1110111 ∧
    bitField (set_display_from_tod (set_tod_from_ports (16 * 3661) ⟨0, 0, 0, 0, 0⟩).2 0).2 14 7
      = 0b0100100 ∧
    bitField (set_display_from_tod (set_tod_from_ports (16 * 3661) ⟨0, 0, 0, 0, 0⟩).2 0).2 21 7
      = 0 ∧
    bitSet (set_display_from_tod (set_tod_from_ports (16 * 3661) ⟨0, 0, 0, 0, 0⟩).2 0).2 28 ∧
    ¬ bitSet (set_display_from_tod (set_tod_from_ports (16 * 3661) ⟨0, 0, 0, 0, 0⟩).2 0).2 29 ∧
    (clock_update ⟨16 * 3661, 0⟩).2.CLOCK_DISPLAY_PORT
      = (set_display_from_tod (set_tod_from_ports (16 * 3661) ⟨0, 0, 0, 0, 0⟩).2 0).2 := by
  refine ⟨?_, ?_, ?_, ?_, ?_, ?_, ?_, ?_, ?_, ?_, ?_, ?_, ?_⟩ <;> decide

/-- C13, as stated, fails: `v = 1` has `v mod 16 <= 7` and `v, ..., v+7` are all
valid, yet `v` decodes to `day_secs = 0` and `v + 7 = 8` to `day_secs = 1`. -/
theorem rounding_band_fails_at_one :
    ¬ (∀ v : Int, v % 16 ≤ 7 → 0 ≤ v → v + 7 ≤ 16 * 86400 →
        ∀ k : Int, 0 ≤ k → k ≤ 7 →
          (set_tod_from_ports (v + k) ⟨0, 0, 0, 0, 0⟩).2.day_secs
            = (set_tod_from_ports v ⟨0, 0, 0, 0, 0⟩).2.day_secs) := by
  intro h
  exact absurd (h 1 (by decide) (by decide) (by decide) 7 (by decide) (by decide)) (by decide)

/-- C13, amended: for every valid raw value `v` with `v mod 16 <= 7` and every
offset `k` in `0..7` with `v + k` valid, `v + k` decodes to the same `day_secs`
as `v` (namely `v / 16`) as long as the remainder stays in the round-down band,
`v mod 16 + k <= 7`, and to the next whole second `v / 16 + 1` once the
remainder reaches 8; so `v, ..., v+7` all agree exactly when `v mod 16 = 0`. -/
theorem rounding_band (v k : Int) (tod tod2 : tod_t) (hv : v % 16 ≤ 7) (h0 : 0 ≤ v)
    (hk0 : 0 ≤ k) (hk7 : k ≤ 7) (h1 : v + k ≤ 16 * 86400) :
    (set_tod_from_ports v tod).2.day_secs = v / 16 ∧
    (v % 16 + k ≤ 7 →
      (set_tod_from_ports (v + k) tod2).2.day_secs = (set_tod_from_ports v tod).2.day_secs) ∧
    (v % 16 + k ≥ 8 →
      (set_tod_from_ports (v + k) tod2).2.day_secs
        = (set_tod_from_ports v tod).2.day_secs + 1) := by
  rw [set_tod_from_ports_valid v tod h0 (by omega),
    set_tod_from_ports_valid (v + k) tod2 (by omega) h1]
  dsimp only
  refine ⟨by omega, fun h => by omega, fun h => by omega⟩

/-- Witness of the amended C13 at `v = 16*100` with offset 7: the whole band
`v, ..., v+7` rounds down to 100 seconds. -/
theorem rounding_band_witness :
    (set_tod_from_ports (16 * 100) ⟨0, 0, 0, 0, 0⟩).2.day_secs = 16 * 100 / 16 ∧
    (set_tod_from_ports (16 * 100 + 7) ⟨1, 1, 1, 1, 1⟩).2.day_secs
      = (set_tod_from_ports (16 * 100) ⟨0, 0, 0, 0, 0⟩).2.day_secs :=
  have h := rounding_band (16 * 100) 7 ⟨0, 0, 0, 0, 0⟩ ⟨1, 1, 1, 1, 1⟩ (by decide) (by decide)
    (by decide) (by decide) (by decide)
  ⟨h.1, h.2.1 (by decide)⟩

/-- C14, the code at the failing inputs: a record with `time_secs = 60`, and a
record with `ampm = 3`, are both accepted: the encoder returns 0 and
overwrites the display value 5, where the documentation of the function
promises return code 1 and no change. -/
theorem encode_accepts_bad_secs_and_ampm :
    (set_display_from_tod ⟨3600, 60, 0, 1, 1⟩ 5).1 = 0 ∧
    (set_display_from_tod ⟨3600, 60, 0, 1, 1⟩ 5).2 ≠ 5 ∧
    (set_display_from_tod ⟨3600, 0, 0, 1, 3⟩ 5).1 = 0 ∧
    (set_display_from_tod ⟨3600, 0, 0, 1, 3⟩ 5).2 ≠ 5 ∧
    (set_display_from_tod ⟨3600, -1, 0, 1, 1⟩ 5).1 = 0 ∧
    (set_display_from_tod ⟨3600, -1, 0, 1, 1⟩ 5).2 ≠ 5 := by
  refine ⟨?_, ?_, ?_, ?_, ?_, ?_⟩ <;> decide

/-- C15: for every raw value `v` in `[0, 16*86400]` the record produced by the
decoder passes the validation of the encoder (`time_hours` in `[0,12]`,
`time_mins` in `[0,59]`), so the encoder returns 0 on it; hence whenever
`clock_update` returns 0 the encode step inside it succeeded and
`CLOCK_DISPLAY_PORT` holds the pattern written by it. -/
theorem pipeline_encode_never_fails (v d : Int) (tod : tod_t) :
    ((0 ≤ v ∧ v ≤ 16 * 86400) →
      (0 ≤ (set_tod_from_ports v tod).2.time_hours ∧
        (set_tod_from_ports v tod).2.time_hours ≤ 12 ∧
        0 ≤ (set_tod_from_ports v tod).2.time_mins ∧
        (set_tod_from_ports v tod).2.time_mins ≤ 59) ∧
      (set_display_from_tod (set_tod_from_ports v tod).2 d).1 = 0) ∧
    ((clock_update ⟨v, d⟩).1 = 0 →
      (set_display_from_tod (set_tod_from_ports v ⟨0, 0, 0, 0, 0⟩).2 d).1 = 0 ∧
      (clock_update ⟨v, d⟩).2.CLOCK_DISPLAY_PORT
        = (set_display_from_tod (set_tod_from_ports v ⟨0, 0, 0, 0, 0⟩).2 d).2) := by
  have key : ∀ t : tod_t, (0 ≤ v ∧ v ≤ 16 * 86400) →
      (0 ≤ (set_tod_from_ports v t).2.time_hours ∧
        (set_tod_from_ports v t).2.time_hours ≤ 12 ∧
        0 ≤ (set_tod_from_ports v t).2.time_mins ∧
        (set_tod_from_ports v t).2.time_mins ≤ 59) ∧
      (set_display_from_tod (set_tod_from_ports v t).2 d).1 = 0 := by
    intro t hv
    obtain ⟨⟨r0, r1, r2, r3⟩, -⟩ := decoded_passes_validation v t hv.1 hv.2
    refine ⟨⟨r0, r1, r2, r3⟩, ?_⟩
    rw [set_display_from_tod_valid _ d r0 r1 r2 r3]
  refine ⟨key tod, fun h => ?_⟩
  by_cases hv : v < 0 ∨ v > 16 * 86400
  · have e : clock_update ⟨v, d⟩ = (1, ⟨v, d⟩) := by
      unfold clock_update
      simp only [set_tod_from_ports_invalid v _ hv]
      rfl
    rw [e] at h
    exact absurd (show (1 : Int) = 0 from h) (by decide)
  · have hr : 0 ≤ v ∧ v ≤ 16 * 86400 := by omega
    refine ⟨(key ⟨0, 0, 0, 0, 0⟩ hr).2, ?_⟩
    unfold clock_update
    simp only [set_tod_from_ports_valid v _ hr.1 hr.2]
    rw [if_neg (by decide)]

/-- Witness of C15 at `v = 16*43200 + 16`, where the decoder first computes the
hour 0 before forcing it to 12. -/
theorem pipeline_encode_never_fails_witness :
    ((0 : Int) ≤ 16 * 43200 + 16 ∧ (16 * 43200 + 16 : Int) ≤ 16 * 86400) ∧
    (set_display_from_tod (set_tod_from_ports (16 * 43200 + 16) ⟨7, 7, 7, 7, 7⟩).2 99).1 = 0 :=
  ⟨⟨by decide, by decide⟩,
    ((pipeline_encode_never_fails (16 * 43200 + 16) 99 ⟨7, 7, 7, 7, 7⟩).1
      ⟨by decide, by decide⟩).2⟩

/-- C16: for every raw value `v` with `16*86400 - 8 <= v <= 16*86400` the
decoder succeeds with `day_secs = 86400`, `time_hours = 12`, `time_mins = 0`,
`time_secs = 0` and `ampm = 2`; and no valid `v` yields `day_secs` above 86400
or an hour of the day `day_secs / 3600` above 24. -/
theorem decode_end_of_day (v : Int) (tod : tod_t) :
    ((16 * 86400 - 8 ≤ v ∧ v ≤ 16 * 86400) →
      set_tod_from_ports v tod = (0, ⟨86400, 0, 0, 12, 2⟩)) ∧
    ((0 ≤ v ∧ v ≤ 16 * 86400) →
      (set_tod_from_ports v tod).2.day_secs ≤ 86400 ∧
      Int.tdiv (set_tod_from_ports v tod).2.day_secs 3600 ≤ 24) := by
  constructor
  · intro hv
    have hs : (v + 8) / 16 = 86400 := by omega
    rw [set_tod_from_ports_valid v tod (by omega) hv.2, hs]
    rfl
  · intro hv
    rw [set_tod_from_ports_valid v tod hv.1 hv.2]
    dsimp only
    rw [tdiv_of_nonneg _ 3600 (by omega) (by norm_num)]
    constructor <;> omega

/-- Witness of C16 at `v = 16*86400 - 8`, the first raw value that rounds up to
the end of the day. -/
theorem decode_end_of_day_witness :
    ((16 * 86400 - 8 : Int) ≤ 16 * 86400 - 8 ∧ (16 * 86400 - 8 : Int) ≤ 16 * 86400) ∧
    set_tod_from_ports (16 * 86400 - 8) ⟨0, 0, 0, 0, 0⟩ = (0, ⟨86400, 0, 0, 12, 2⟩) :=
  ⟨⟨by decide, by decide⟩,
    (decode_end_of_day (16 * 86400 - 8) ⟨0, 0, 0, 0, 0⟩).1 ⟨by decide, by decide⟩⟩

/-- C17: the display encoding is injective on what it shows: for two records
that both pass validation (`time_hours` in `[0,12]`, `time_mins` in `[0,59]`)
with `ampm` in `{1,2}`, if the encoder writes the same pattern for both then
they have the same `time_hours`, `time_mins` and `ampm`. -/
theorem encode_injective (a b : tod_t) (da db : Int)
    (ha0 : 0 ≤ a.time_hours) (ha1 : a.time_hours ≤ 12)
    (ha2 : 0 ≤ a.time_mins) (ha3 : a.time_mins ≤ 59) (haa : a.ampm = 1 ∨ a.ampm = 2)
    (hb0 : 0 ≤ b.time_hours) (hb1 : b.time_hours ≤ 12)
    (hb2 : 0 ≤ b.time_mins) (hb3 : b.time_mins ≤ 59) (hbb : b.ampm = 1 ∨ b.ampm = 2)
    (h : (set_display_from_tod a da).2 = (set_display_from_tod b db).2) :
    a.time_hours = b.time_hours ∧ a.time_mins = b.time_mins ∧ a.ampm = b.ampm := by
  rw [set_display_from_tod_valid a da ha0 ha1 ha2 ha3,
    set_display_from_tod_valid b db hb0 hb1 hb2 hb3] at h
  dsimp only at h
  obtain ⟨p0, p1, p2, p3, p4, -, -, -⟩ :=
    packed_fields a.time_hours a.time_mins a.ampm ha0 ha2 ha3
  obtain ⟨q0, q1, q2, q3, q4, -, -, -⟩ :=
    packed_fields b.time_hours b.time_mins b.ampm hb0 hb2 hb3
  rw [h] at p0 p1 p2 p3 p4
  have ea1 : Int.tmod a.time_mins 10 = a.time_mins % 10 := Int.tmod_eq_emod ha2 (by norm_num)
  have ea2 : Int.tdiv a.time_mins 10 = a.time_mins / 10 := Int.tdiv_eq_ediv ha2 (by norm_num)
  have ea3 : Int.tmod a.time_hours 10 = a.time_hours % 10 := Int.tmod_eq_emod ha0 (by norm_num)
  have eb1 : Int.tmod b.time_mins 10 = b.time_mins % 10 := Int.tmod_eq_emod hb2 (by norm_num)
  have eb2 : Int.tdiv b.time_mins 10 = b.time_mins / 10 := Int.tdiv_eq_ediv hb2 (by norm_num)
  have eb3 : Int.tmod b.time_hours 10 = b.time_hours % 10 := Int.tmod_eq_emod hb0 (by norm_num)
  have i0 := num_list_at_inj _ _ (by omega) (by omega) (by omega) (by omega) (p0.symm.trans q0)
  have i1 := num_list_at_inj _ _ (by omega) (by omega) (by omega) (by omega) (p1.symm.trans q1)
  have i2 := num_list_at_inj _ _ (by omega) (by omega) (by omega) (by omega) (p2.symm.trans q2)
  have i3 := p3.symm.trans q3
  have i4 := p4.symm.trans q4
  have hd : num_list_at 1 = 36 := by decide
  rw [hd] at i3
  refine ⟨?_, by omega, ?_⟩
  · split_ifs at i3 <;> omega
  · split_ifs at i4 <;> omega

/-- Witness of C17: two records showing 10:30 AM that differ in `day_secs` and
`time_secs` only. -/
theorem encode_injective_witness :
    (37800 : Int) ≠ 0 ∧
    (⟨37800, 15, 30, 10, 1⟩ : tod_t).time_hours = (⟨0, 0, 30, 10, 1⟩ : tod_t).time_hours ∧
    (⟨37800, 15, 30, 10, 1⟩ : tod_t).time_mins = (⟨0, 0, 30, 10, 1⟩ : tod_t).time_mins ∧
    (⟨37800, 15, 30, 10, 1⟩ : tod_t).ampm = (⟨0, 0, 30, 10, 1⟩ : tod_t).ampm :=
  ⟨by decide,
    encode_injective ⟨37800, 15, 30, 10, 1⟩ ⟨0, 0, 30, 10, 1⟩ 0 1
      (by decide) (by decide) (by decide) (by decide) (Or.inl rfl)
      (by decide) (by decide) (by decide) (by decide) (Or.inl rfl) (by decide)⟩

/-- C18: the return code and the written pattern of the encoder depend only on
`time_hours`, `time_mins` and whether `ampm` equals 1: two records that agree
on these give the same result, whatever their `time_secs`, `day_secs` and exact
`ampm`; and every `ampm` other than 1 (0 and 3 included) is displayed as PM,
bit 29 set and bit 28 clear. -/
theorem encode_depends_only_on (a b : tod_t) (d : Int) :
    ((a.time_hours = b.time_hours ∧ a.time_mins = b.time_mins ∧
        (a.ampm = 1 ↔ b.ampm = 1)) →
      set_display_from_tod a d = set_display_from_tod b d) ∧
    (((set_display_from_tod a d).1 = 0 ∧ a.ampm ≠ 1) →
      bitSet (set_display_from_tod a d).2 29 ∧ ¬ bitSet (set_display_from_tod a d).2 28) ∧
    (bitSet (set_display_from_tod ⟨0, 0, 0, 12, 0⟩ d).2 29 ∧
      bitSet (set_display_from_tod ⟨0, 0, 0, 12, 3⟩ d).2 29) := by
  have pm : ∀ t : tod_t, ((set_display_from_tod t d).1 = 0 ∧ t.ampm ≠ 1) →
      bitSet (set_display_from_tod t d).2 29 ∧ ¬ bitSet (set_display_from_tod t d).2 28 := by
    intro t ht
    obtain ⟨r0, r1, r2, r3⟩ := encode_ok_ranges t d ht.1
    obtain ⟨-, -, -, -, -, f5, f6, -⟩ := packed_fields t.time_hours t.time_mins t.ampm r0 r2 r3
    rw [set_display_from_tod_valid t d r0 r1 r2 r3]
    dsimp only
    unfold bitSet
    rw [f5, f6, if_neg ht.2, if_neg ht.2]
    exact ⟨rfl, by decide⟩
  refine ⟨fun h => ?_, pm a, (pm ⟨0, 0, 0, 12, 0⟩ ⟨?_, by decide⟩).1,
    (pm ⟨0, 0, 0, 12, 3⟩ ⟨?_, by decide⟩).1⟩
  · obtain ⟨hh, hm, hp⟩ := h
    unfold set_display_from_tod
    rw [hh, hm]
    by_cases hb : b.ampm = 1
    · simp only [hp.2 hb, hb]
    · have hna : ¬ a.ampm = 1 := fun ha => hb (hp.1 ha)
      simp only [hna, hb]
  · rw [set_display_from_tod_valid _ d (by decide) (by decide) (by decide) (by decide)]
  · rw [set_display_from_tod_valid _ d (by decide) (by decide) (by decide) (by decide)]

/-- Witness of C18: 7:45 with `ampm = 0` and with `ampm = 3`, and different
seconds, give the same result. -/
theorem encode_depends_only_on_witness :
    set_display_from_tod ⟨71100, 0, 45, 7, 0⟩ 11 = set_display_from_tod ⟨1, 59, 45, 7, 3⟩ 11 :=
  (encode_depends_only_on ⟨71100, 0, 45, 7, 0⟩ ⟨1, 59, 45, 7, 3⟩ 11).1
    ⟨rfl, rfl, by decide⟩

/-- C19: every pattern the encoder writes lies in `[2^28, 2^30)`: it is
non-negative and not zero, bits 30 and 31 are clear, at least one meridiem bit
is set; and every operand of the ORs (the masks shifted by 0, 7, 14, 21 and the
bits `1 << 28`, `1 << 29`) is non-negative and below `2^30`, so no shift and
no OR leaves the range of a signed 32-bit `int`. -/
theorem encode_pattern_range (tod : tod_t) (d : Int)
    (h : (set_display_from_tod tod d).1 = 0) :
    (2 ^ 28 ≤ (set_display_from_tod tod d).2 ∧ (set_display_from_tod tod d).2 < 2 ^ 30) ∧
    (0 ≤ (set_display_from_tod tod d).2 ∧ (set_display_from_tod tod d).2 ≠ 0) ∧
    (¬ bitSet (set_display_from_tod tod d).2 30 ∧ ¬ bitSet (set_display_from_tod tod d).2 31) ∧
    (bitSet (set_display_from_tod tod d).2 28 ∨ bitSet (set_display_from_tod tod d).2 29) ∧
    (0 ≤ num_list_at (Int.tmod tod.time_mins 10) ∧
      num_list_at (Int.tmod tod.time_mins 10) < 2 ^ 7) ∧
    (0 ≤ num_list_at (Int.tdiv tod.time_mins 10) <<< (7 : Int) ∧
      num_list_at (Int.tdiv tod.time_mins 10) <<< (7 : Int) < 2 ^ 14) ∧
    (0 ≤ num_list_at (Int.tmod tod.time_hours 10) <<< (14 : Int) ∧
      num_list_at (Int.tmod tod.time_hours 10) <<< (14 : Int) < 2 ^ 21) ∧
    (0 ≤ num_list_at 1 <<< (21 : Int) ∧ num_list_at 1 <<< (21 : Int) < 2 ^ 28) ∧
    ((1 : Int) <<< (28 : Int) = 2 ^ 28 ∧ (1 : Int) <<< (29 : Int) = 2 ^ 29) := by
  obtain ⟨r0, r1, r2, r3⟩ := encode_ok_ranges tod d h
  obtain ⟨-, -, -, -, -, f5, f6, g0, g1⟩ :=
    packed_fields tod.time_hours tod.time_mins tod.ampm r0 r2 r3
  have e1 : Int.tmod tod.time_mins 10 = tod.time_mins % 10 := Int.tmod_eq_emod r2 (by norm_num)
  have e2 : Int.tdiv tod.time_mins 10 = tod.time_mins / 10 := Int.tdiv_eq_ediv r2 (by norm_num)
  have e3 : Int.tmod tod.time_hours 10 = tod.time_hours % 10 :=
    Int.tmod_eq_emod r0 (by norm_num)
  obtain ⟨a0, a1⟩ := num_list_at_bound (Int.tmod tod.time_mins 10) (by omega) (by omega)
  obtain ⟨b0, b1⟩ := num_list_at_bound (Int.tdiv tod.time_mins 10) (by omega) (by omega)
  obtain ⟨c0, c1⟩ := num_list_at_bound (Int.tmod tod.time_hours 10) (by omega) (by omega)
  have s1 := shiftLeft_eq_mul (num_list_at (Int.tdiv tod.time_mins 10)) 7
  have s2 := shiftLeft_eq_mul (num_list_at (Int.tmod tod.time_hours 10)) 14
  simp only [Nat.cast_ofNat] at s1 s2
  rw [set_display_from_tod_valid tod d r0 r1 r2 r3]
  dsimp only
  unfold bitSet
  rw [s1, s2]
  have f7 : bitField (packed tod.time_hours tod.time_mins tod.ampm) 30 1 = 0 := by
    rw [bitField_eq]; omega
  have f8 : bitField (packed tod.time_hours tod.time_mins tod.ampm) 31 1 = 0 := by
    rw [bitField_eq]; omega
  rw [f5, f6, f7, f8]
  refine ⟨⟨g0, g1⟩, ⟨by omega, by omega⟩, ⟨by decide, by decide⟩, ?_, ⟨a0, by omega⟩,
    ⟨by omega, by omega⟩, ⟨by omega, by omega⟩, ⟨by decide, by decide⟩, by decide, by decide⟩
  by_cases ha : tod.ampm = 1
  · left; rw [if_pos ha]
  · right; rw [if_neg ha]

/-- Witness of C19 at 12:59 PM, the largest pattern of the display. -/
theorem encode_pattern_range_witness :
    (2 : Int) ^ 28 ≤ (set_display_from_tod ⟨0, 0, 59, 12, 2⟩ 0).2 ∧
    (set_display_from_tod ⟨0, 0, 59, 12, 2⟩ 0).2 < 2 ^ 30 :=
  (encode_pattern_range ⟨0, 0, 59, 12, 2⟩ 0 (by decide)).1

/-- C20: whenever the validation of the encoder passes, the three computed
indexes satisfy `0 <= time_mins % 10 <= 9`, `0 <= time_mins / 10 <= 5` and
`0 <= time_hours % 10 <= 9`; so every access to the 11-entry `num_list` (the
constant index 1 included) is within the array, reads an element of the
table, and the eleventh entry at index 10 is never read. -/
theorem table_lookups_in_bounds (tod : tod_t) (d : Int)
    (h : (set_display_from_tod tod d).1 = 0) :
    (0 ≤ Int.tmod tod.time_mins 10 ∧ Int.tmod tod.time_mins 10 ≤ 9) ∧
    (0 ≤ Int.tdiv tod.time_mins 10 ∧ Int.tdiv tod.time_mins 10 ≤ 5) ∧
    (0 ≤ Int.tmod tod.time_hours 10 ∧ Int.tmod tod.time_hours 10 ≤ 9) ∧
    num_list.length = 11 ∧
    ((Int.tmod tod.time_mins 10).toNat < num_list.length ∧
      (Int.tdiv tod.time_mins 10).toNat < num_list.length ∧
      (Int.tmod tod.time_hours 10).toNat < num_list.length ∧
      (1 : Int).toNat < num_list.length) ∧
    ((Int.tmod tod.time_mins 10).toNat ≠ 10 ∧ (Int.tdiv tod.time_mins 10).toNat ≠ 10 ∧
      (Int.tmod tod.time_hours 10).toNat ≠ 10) ∧
    (num_list[(Int.tmod tod.time_mins 10).toNat]?
        = some (num_list_at (Int.tmod tod.time_mins 10)) ∧
      num_list[(Int.tdiv tod.time_mins 10).toNat]?
        = some (num_list_at (Int.tdiv tod.time_mins 10)) ∧
      num_list[(Int.tmod tod.time_hours 10).toNat]?
        = some (num_list_at (Int.tmod tod.time_hours 10))) := by
  obtain ⟨r0, r1, r2, r3⟩ := encode_ok_ranges tod d h
  have e1 : Int.tmod tod.time_mins 10 = tod.time_mins % 10 := Int.tmod_eq_emod r2 (by norm_num)
  have e2 : Int.tdiv tod.time_mins 10 = tod.time_mins / 10 := Int.tdiv_eq_ediv r2 (by norm_num)
  have e3 : Int.tmod tod.time_hours 10 = tod.time_hours % 10 :=
    Int.tmod_eq_emod r0 (by norm_num)
  obtain ⟨l1, g1⟩ := num_list_at_get (Int.tmod tod.time_mins 10) (by omega) (by omega)
  obtain ⟨l2, g2⟩ := num_list_at_get (Int.tdiv tod.time_mins 10) (by omega) (by omega)
  obtain ⟨l3, g3⟩ := num_list_at_get (Int.tmod tod.time_hours 10) (by omega) (by omega)
  have hlen : num_list.length = 11 := by decide
  refine ⟨⟨by omega, by omega⟩, ⟨by omega, by omega⟩, ⟨by omega, by omega⟩, hlen,
    ⟨l1, l2, l3, by decide⟩, ⟨by omega, by omega, by omega⟩, g1, g2, g3⟩

/-- Witness of C20 at 12:59, where the three indexes are 9, 5 and 2. -/
theorem table_lookups_in_bounds_witness :
    (set_display_from_tod ⟨0, 0, 59, 12, 2⟩ 0).1 = 0 ∧
    (Int.tmod (⟨0, 0, 59, 12, 2⟩ : tod_t).time_mins 10).toNat < num_list.length ∧
    (Int.tdiv (⟨0, 0, 59, 12, 2⟩ : tod_t).time_mins 10).toNat < num_list.length ∧
    (Int.tmod (⟨0, 0, 59, 12, 2⟩ : tod_t).time_hours 10).toNat < num_list.length :=
  have h := table_lookups_in_bounds ⟨0, 0, 59, 12, 2⟩ 0 (by decide)
  ⟨by decide, h.2.2.2.2.1.1, h.2.2.2.2.1.2.1, h.2.2.2.2.1.2.2.1⟩

end ClockUpdate
